import Mathlib

/-!
Verification of the `dvitch` module-tree core (`src/dvitch/module.py`).

Shallow embedding: a `Module` value is the state of one Python `Module`
object after `Module.__init__` has run — its three registries
(`_parameters`, `_modules`, `_buffers`), its `_training` flag, and the
ordinary entries of its instance dict (`attrs`).  Registries are ordered
association lists, matching `OrderedDict` insertion order.  The opaque
tensor type is modelled as `Int`; Python object identity of a parameter
box is modelled by an explicit `boxId` field.  Fallible operations
return `Except Err _`, with `Err` naming the error kinds of the spec's
taxonomy (§7): `AssertionError`s on names map to `invalidName`, on
registry conflicts to `nameConflict`, `AttributeError` to
`attributeNotFound`, the `TypeError`s of `get_module`/`get_parameter`
to `notAComponent`/`notAParameter`, `NotImplementedError` to
`notImplemented`, and the `ValueError` of tuple unpacking to
`valueError`.
-/

set_option autoImplicit false

namespace Dvitch

/-- The opaque tensor value type (`TTensorLike`); its arithmetic is irrelevant here. -/
abbrev Tensor := Int

/-- A `Parameter` box: `boxId` models Python object identity of the box,
`data` its wrapped tensor (`Parameter.data`). -/
structure Param where
  boxId : Nat
  data : Tensor
deriving DecidableEq, Repr

/-- A value stored in the ordinary instance dict by `super().__setattr__`:
either a tensor-or-`None` or some other opaque object (payload `raw`). -/
inductive PlainVal where
  | tens : Option Tensor → PlainVal
  | raw : Nat → PlainVal
deriving DecidableEq, Repr

/-- Error kinds, following the spec's taxonomy (§7) plus the two concrete
Python failure modes `ValueError` (tuple unpacking) and `RecursionError`. -/
inductive Err where
  | attributeNotFound
  | notAComponent
  | notAParameter
  | nameConflict
  | invalidName
  | typeKind
  | notInitialized
  | notImplemented
  | usageError
  | recursionError
  | valueError
deriving DecidableEq, Repr

/-- An initialized `Module` object: the three registries (parameters may be
`None`, children may be `None`, buffers may be `None` — all per source),
the `_training` flag, and the ordinary instance attributes. -/
inductive Module where
  | mk (params : List (String × Option Param))
       (children : List (String × Option Module))
       (buffs : List (String × Option Tensor))
       (training : Bool)
       (attrs : List (String × PlainVal))

/-- `_parameters` registry of a module. -/
def Module.params : Module → List (String × Option Param)
  | .mk ps _ _ _ _ => ps

/-- `_modules` registry of a module. -/
def Module.children : Module → List (String × Option Module)
  | .mk _ ms _ _ _ => ms

/-- `_buffers` registry of a module. -/
def Module.buffs : Module → List (String × Option Tensor)
  | .mk _ _ bs _ _ => bs

/-- `_training` flag of a module. -/
def Module.training : Module → Bool
  | .mk _ _ _ tr _ => tr

/-- Ordinary instance attributes of a module (entries of its instance dict
other than the registry slots). -/
def Module.attrs : Module → List (String × PlainVal)
  | .mk _ _ _ _ ats => ats

/-- Ordered-dict lookup: first value bound to `key`. -/
def alookup {α : Type} (key : String) : List (String × α) → Option α
  | [] => none
  | (k, v) :: t => if k = key then some v else alookup key t

/-- Ordered-dict in-place update: replace the value at `key`, keeping position. -/
def aupdate {α : Type} (key : String) (v : α) : List (String × α) → List (String × α) :=
  List.map fun kv => if kv.1 = key then (key, v) else kv

/-- Python dict assignment `d[k] = v`: update in place when present, else append. -/
def aupsert {α : Type} (key : String) (v : α) (l : List (String × α)) : List (String × α) :=
  if (alookup key l).isSome then aupdate key v l else l ++ [(key, v)]

/-- `"." in name` on the character list of a name. -/
def hasDot : List Char → Bool
  | [] => false
  | c :: t => if c = '.' then true else hasDot t

/-- The prefix join used by both `named_modules` and `_named_members`:
`prefix + "." + key` when the prefix is nonempty, else `key` alone. -/
def qualName (p k : String) : String :=
  if p = "" then k else p ++ "." ++ k

mutual

/-- `Module.named_modules(prefix, include_self, include_children)`, collapsed
from a generator to an `Except`-valued list: the pairs it would yield, or the
error it would raise while being drained.  A `None` child entry raises
`AttributeError` when recursed into (`None.named_modules`), and is yielded
as-is when `include_children` is false. -/
def named_modules (m : Module) (pfx : String) (includeSelf includeChildren : Bool) :
    Except Err (List (String × Option Module)) :=
  match m with
  | .mk _ ms _ _ _ => do
      let rest ← named_modules_children ms pfx includeChildren
      pure ((if includeSelf then [(pfx, some m)] else []) ++ rest)

/-- The `for key, module in self._modules.items()` loop of `named_modules`.
On recursion the source passes `include_self=True` and leaves
`include_children` at its default `True`. -/
def named_modules_children (l : List (String × Option Module)) (pfx : String)
    (includeChildren : Bool) : Except Err (List (String × Option Module)) :=
  match l with
  | [] => pure []
  | (k, oc) :: t => do
      let here ←
        if includeChildren then
          match oc with
          | some c => named_modules c (qualName pfx k) true true
          | none => Except.error Err.attributeNotFound
        else pure [(qualName pfx k, oc)]
      let rest ← named_modules_children t pfx includeChildren
      pure (here ++ rest)

end

mutual

/-- Number of actual components in a tree (the root plus all descendants
reachable through `some` child entries). -/
def msize : Module → Nat
  | .mk _ ms _ _ _ => 1 + csize ms

/-- Sum of subtree sizes over a child registry. -/
def csize : List (String × Option Module) → Nat
  | [] => 0
  | (_, none) :: t => csize t
  | (_, some c) :: t => msize c + csize t

end

/-- The result of a Python attribute read on a module: a parameter-registry
entry, a child-registry entry, a buffer-registry entry, or an ordinary
instance attribute. -/
inductive AttrResult where
  | pres : Option Param → AttrResult
  | mres : Option Module → AttrResult
  | bres : Option Tensor → AttrResult
  | ares : PlainVal → AttrResult

/-- `Module.__getattr__`: the fallback Python runs only after normal lookup
fails.  Checks `_parameters`, then `_modules`, then `_buffers`, in that
order; otherwise `AttributeError`.  (The `hasattr(self, "_parameters")`
guards of the source are always true on an initialized module, the only
kind `Module` models; the pre-init state is modelled separately below.) -/
def module_getattr (m : Module) (key : String) : Except Err AttrResult :=
  match alookup key m.params with
  | some p => .ok (.pres p)
  | none =>
    match alookup key m.children with
    | some c => .ok (.mres c)
    | none =>
      match alookup key m.buffs with
      | some b => .ok (.bres b)
      | none => .error .attributeNotFound

/-- The full Python attribute read `getattr(m, key)` for a key that is not a
class-level attribute of `Module`: normal lookup consults the instance dict
first, and only when that misses does `__getattr__` run. -/
def getattribute (m : Module) (key : String) : Except Err AttrResult :=
  match alookup key m.attrs with
  | some v => .ok (.ares v)
  | none => module_getattr m key

/-- The argument type of `register_parameter`: `isinstance(_, ParameterLike)`
admits an existing `Parameter` box, a bare tensor, or `None` (the source's
wrap line `if not isinstance(parameter, Parameter) and parameter is not None`
shows `None` passes the `ParameterLike` assert). -/
inductive ParameterLike where
  | box : Param → ParameterLike
  | bare : Tensor → ParameterLike
  | pnone : ParameterLike

/-- The wrap line of `register_parameter`: a bare tensor is wrapped in a fresh
`Parameter` box (identity of the fresh box is not tracked; its `boxId` is a
placeholder), a box is stored as-is, `None` is stored as `None`. -/
def wrapParameterLike : ParameterLike → Option Param
  | .box p => some p
  | .bare t => some ⟨0, t⟩
  | .pnone => none

/-- `Module.register_parameter(name, parameter)` on an initialized module,
following the source's check order: non-empty name, no separator in the name,
(the `ParameterLike` assert holds by typing), no existing entry, then wrap
and store at the end of the registry. -/
def register_parameter (m : Module) (name : String) (pl : ParameterLike) :
    Except Err Module :=
  match m with
  | .mk ps ms bs tr ats =>
    if name = "" then .error .invalidName
    else if hasDot name.data then .error .invalidName
    else if (alookup name ps).isSome then .error .nameConflict
    else .ok (.mk (ps ++ [(name, wrapParameterLike pl)]) ms bs tr ats)

/-- `Module.add_module(name, module)` on an initialized module: non-empty
name, no separator, `module` a `Module` or `None` (by typing), no existing
entry, then store. -/
def add_module (m : Module) (name : String) (mo : Option Module) :
    Except Err Module :=
  match m with
  | .mk ps ms bs tr ats =>
    if name = "" then .error .invalidName
    else if hasDot name.data then .error .invalidName
    else if (alookup name ms).isSome then .error .nameConflict
    else .ok (.mk ps (ms ++ [(name, mo)]) bs tr ats)

/-- `Module.register_buffer(name, buffer)` on an initialized module. -/
def register_buffer (m : Module) (name : String) (b : Option Tensor) :
    Except Err Module :=
  match m with
  | .mk ps ms bs tr ats =>
    if name = "" then .error .invalidName
    else if hasDot name.data then .error .invalidName
    else if (alookup name bs).isSome then .error .nameConflict
    else .ok (.mk ps ms (bs ++ [(name, b)]) tr ats)

/-- A value assigned through `Module.__setattr__`: a `Parameter`, a `Module`
(Python `None` is not an instance of `Module`, so it takes the plain branch),
or anything else. -/
inductive SetVal where
  | vparam : Param → SetVal
  | vmodule : Module → SetVal
  | vplain : PlainVal → SetVal

/-- `Module.__setattr__`: a `Parameter` value updates an existing entry's
`.data` in place (`None` entries raise `AttributeError`, as `None.data`
would) or registers a new parameter; a `Module` value goes through
`add_module`; any other value updates an existing buffer slot when it is a
tensor or `None` (`TypeError` otherwise) or else becomes an ordinary
instance attribute. -/
def setattr_ (m : Module) (key : String) (v : SetVal) : Except Err Module :=
  match v with
  | .vparam p =>
    match m with
    | .mk ps ms bs tr ats =>
      match alookup key ps with
      | some (some q) =>
          .ok (.mk (aupdate key (some { q with data := p.data }) ps) ms bs tr ats)
      | some none => .error .attributeNotFound
      | none => register_parameter m key (.box p)
  | .vmodule c => add_module m key (some c)
  | .vplain pv =>
    match m with
    | .mk ps ms bs tr ats =>
      match alookup key bs with
      | some _ =>
        match pv with
        | .tens ot => .ok (.mk ps ms (aupdate key ot bs) tr ats)
        | .raw _ => .error .typeKind
      | none => .ok (.mk ps ms bs tr (aupsert key pv ats))

/-- The walk of `Module.get_module` over the split path: at each segment,
`hasattr`/`getattr` (our `getattribute`), then `isinstance(atom, Module)` —
a missing attribute raises `AttributeError`, a non-`Module` value (including
a `None` child slot) raises the `TypeError` kind `notAComponent`. -/
def get_module_walk (m : Module) : List String → Except Err Module
  | [] => pure m
  | bar :: rest =>
    match getattribute m bar with
    | .error _ => .error .attributeNotFound
    | .ok (.mres (some c)) => get_module_walk c rest
    | .ok _ => .error .notAComponent

/-- `Module.get_module(ladder)`: split on the separator and walk child by
child. -/
def get_module (m : Module) (ladder : String) : Except Err Module :=
  get_module_walk m (ladder.splitOn ".")

/-- Python `s.rsplit(".", 1)` restricted to what `get_parameter` needs:
`none` when the string holds no separator (so that 2-tuple unpacking raises
`ValueError`), else the parts before and after the last separator. -/
def lastSplit : List Char → Option (List Char × List Char)
  | [] => none
  | c :: t =>
    match lastSplit t with
    | some (pre, post) => some (c :: pre, post)
    | none => if c = '.' then some ([], t) else none

/-- `Module.get_parameter(ladder)`: `ladder, param_name = ladder.rsplit(".", 1)`
raises `ValueError` when the path holds no separator; otherwise resolve the
prefix as a module path, read the final segment, and require it to be
`ParameterLike` (a parameter box or the `None` placeholder — see
`ParameterLike`); any other role raises the `TypeError` kind
`notAParameter`. -/
def get_parameter (m : Module) (ladder : String) : Except Err (Option Param) :=
  match lastSplit ladder.data with
  | none => .error .valueError
  | some (pre, post) => do
    let md ← get_module m (String.mk pre)
    match getattribute md (String.mk post) with
    | .error _ => .error .attributeNotFound
    | .ok (.pres p) => pure p
    | .ok _ => .error .notAParameter

/-- The member loop of `Module._named_members`: for each `(path, module)`
pair produced by `named_modules`, read that module's registry
(`getattr(module, "_parameters")` raises `AttributeError` on a `None`
entry) and qualify each member name with the module's path. -/
def named_members_of {α : Type} (l : List (String × Option Module))
    (f : Module → List (String × α)) : Except Err (List (String × α)) :=
  match l with
  | [] => pure []
  | (mp, om) :: t =>
    match om with
    | none => .error .attributeNotFound
    | some mm => do
      let rest ← named_members_of t f
      pure ((f mm).map (fun kv => (qualName mp kv.1, kv.2)) ++ rest)

/-- `Module._named_members(get_members_fn, prefix, recursive)` (the
unimplemented `remove_duplicates` option is dead code in the source). -/
def named_members {α : Type} (m : Module) (f : Module → List (String × α))
    (pfx : String) (recursive : Bool) : Except Err (List (String × α)) := do
  let mods ← named_modules m pfx true recursive
  named_members_of mods f

/-- `Module.named_parameters(prefix, recursive)`. -/
def named_parameters (m : Module) (pfx : String) (recursive : Bool) :
    Except Err (List (String × Option Param)) :=
  named_members m Module.params pfx recursive

/-- `Module.named_buffers(prefix, recursive)`. -/
def named_buffers (m : Module) (pfx : String) (recursive : Bool) :
    Except Err (List (String × Option Tensor)) :=
  named_members m Module.buffs pfx recursive

mutual

/-- The `training` property setter: set the flag, then set the same mode on
every direct child (`modules(include_children=False)` yields each direct
child entry, including `None` ones, on which the assignment raises
`AttributeError`); each child's own setter recurses in turn.  Python
mutates in place; the model returns the updated tree. -/
def set_training (m : Module) (mode : Bool) : Except Err Module :=
  match m with
  | .mk ps ms bs _ ats => do
    let ms' ← set_training_children ms mode
    pure (.mk ps ms' bs mode ats)

/-- The cascade of the `training` setter over a child registry. -/
def set_training_children (l : List (String × Option Module)) (mode : Bool) :
    Except Err (List (String × Option Module)) :=
  match l with
  | [] => pure []
  | (k, oc) :: t =>
    match oc with
    | none => .error .attributeNotFound
    | some c => do
      let c' ← set_training c mode
      let t' ← set_training_children t mode
      pure ((k, some c') :: t')

end

/-- The three overridable tier methods of a subclass: `forward_nb`
(params-only), `forward_np` (buffers-only), `forward_nm` (stateless).
The base-class defaults raise `NotImplementedError`; a subclass is any
choice of these three functions. -/
structure Overrides (P B I O : Type) where
  forward_nb : P → I → Except Err O
  forward_np : B → I → Except Err O
  forward_nm : I → Except Err O

/-- One `try ... except NotImplementedError: pass` step of `forward`: a tier
raising exactly `NotImplementedError` falls through to the next alternative;
any other outcome — success or a different error — is the result. -/
def tryTier {O : Type} (x : Except Err O) (next : Unit → Except Err O) : Except Err O :=
  match x with
  | .error .notImplemented => next ()
  | r => r

/-- `Module.forward(params, buffs, inputs)`: try `forward_nb`, then
`forward_np`, then `forward_nm`, catching exactly `NotImplementedError`
between tiers; raise `NotImplementedError` when all three do. -/
def Overrides.forward {P B I O : Type} (ov : Overrides P B I O)
    (params : P) (buffs : B) (inputs : I) : Except Err O :=
  tryTier (ov.forward_nb params inputs) fun _ =>
    tryTier (ov.forward_np buffs inputs) fun _ =>
      tryTier (ov.forward_nm inputs) fun _ =>
        .error .notImplemented

/-- Modelled from the spec: the external compile facility (`jax.jit`, §6
"returns a function with identical observable results") applied in
`Module.__forward__`; modelled as the identity on functions. -/
def jitCompile {α : Type} (f : α) : α := f

/-- `Module.__forward__`: the jit-compiled wrapper around `forward`,
keyed on the component instance. -/
def forwardCompiled {P B I O : Type} (ov : Overrides P B I O) :
    P → B → I → Except Err O :=
  jitCompile fun p b i => ov.forward p b i

/-- `Module.__call__(inputs)`: flatten the current parameters and buffers
(`dict(self.named_parameters())`, `dict(self.named_buffers())` — the
ordered mappings, modelled by the yielded association lists) and pass them
with `inputs` through the compiled wrapper. -/
def moduleCall {I O : Type}
    (ov : Overrides (List (String × Option Param)) (List (String × Option Tensor)) I O)
    (m : Module) (inputs : I) : Except Err O := do
  let params ← named_parameters m "" true
  let buffs ← named_buffers m "" true
  forwardCompiled ov params buffs inputs

/-- Attribute lookup of a registry slot (such as `"_parameters"`) on a module
object whose `Module.__init__` has not run, with fuel standing for Python's
recursion limit: normal lookup misses the slot, so `__getattr__` runs, whose
first step `hasattr(self, "_parameters")` performs the very same lookup
again; no value is ever produced (`Empty`), and exhausting the limit raises
`RecursionError`. -/
def uninitRegistryLookup : Nat → Except Err Empty
  | 0 => .error .recursionError
  | n + 1 => uninitRegistryLookup n

/-- `register_parameter` invoked before `__init__` has created the
registries, in source line order: the two name asserts run first, then the
conflict assert `name not in self._parameters` reads `self._parameters` and
falls into the `__getattr__` loop; the `NotInitialized` guard sits after
that read, so control never reaches it (`Empty.elim`). -/
def register_parameter_preinit (fuel : Nat) (name : String) : Except Err Unit :=
  if name = "" then .error .invalidName
  else if hasDot name.data then .error .invalidName
  else (uninitRegistryLookup fuel).bind fun e => e.elim

/-- `add_module` invoked before `__init__` has created the registries: the
conflict assert reads `self._modules` before the `NotInitialized` guard. -/
def add_module_preinit (fuel : Nat) (name : String) : Except Err Unit :=
  if name = "" then .error .invalidName
  else if hasDot name.data then .error .invalidName
  else (uninitRegistryLookup fuel).bind fun e => e.elim

/-- `register_buffer` invoked before `__init__` has created the registries:
the conflict assert reads `self._buffers` before the `NotInitialized`
guard. -/
def register_buffer_preinit (fuel : Nat) (name : String) : Except Err Unit :=
  if name = "" then .error .invalidName
  else if hasDot name.data then .error .invalidName
  else (uninitRegistryLookup fuel).bind fun e => e.elim

mutual

/-- A module tree reachable through the registration API: every child entry
was added by `add_module` with a non-empty, separator-free name not already
present, and holds an actual component (no `None` slots), recursively. -/
def wellFormedb : Module → Bool
  | .mk _ ms _ _ _ => wfc ms

/-- Well-formedness of one child registry. -/
def wfc : List (String × Option Module) → Bool
  | [] => true
  | (_, none) :: _ => false
  | (k, some c) :: t =>
    if k = "" then false
    else if hasDot k.data then false
    else wellFormedb c && (alookup k t).isNone && wfc t

end

mutual

/-- The name chains of a tree: for every component reachable from the root,
the list of child names leading to it ([] for the root itself), in
depth-first registration order — the abstract form of the paths
`named_modules` emits. -/
def chains : Module → List (List String)
  | .mk _ ms _ _ _ => [] :: chainsChildren ms

/-- Name chains contributed by a child registry (a `None` slot contributes
none; it is excluded by `wellFormedb` anyway). -/
def chainsChildren : List (String × Option Module) → List (List String)
  | [] => []
  | (_, none) :: t => chainsChildren t
  | (k, some c) :: t => (chains c).map (fun ch => k :: ch) ++ chainsChildren t

end

/-- Fold a name chain onto a prefix with the separator join of the source. -/
def joinChain (p : String) : List String → String
  | [] => p
  | a :: r => joinChain (qualName p a) r

/-- The characters a chain appends after a nonempty prefix: a separator and
the segment, for each segment. -/
def chainTail : List String → List Char
  | [] => []
  | a :: r => '.' :: a.data ++ chainTail r

theorem sizeOf_child_lt {ms : List (String × Option Module)} {k : String} {c : Module}
    (h : (k, some c) ∈ ms) : sizeOf c < sizeOf ms := by
  induction ms with
  | nil => cases h
  | cons hd t ih =>
    rcases List.mem_cons.mp h with h1 | h2
    · subst h1; simp; omega
    · have := ih h2; simp; omega

/-- Strong induction over the module tree: to prove `P` of a module it
suffices to prove it assuming `P` of every direct child. -/
theorem Module.indStrong (P : Module → Prop)
    (h : ∀ ps ms bs tr ats,
      (∀ k c, (k, some c) ∈ ms → P c) → P (.mk ps ms bs tr ats)) :
    ∀ m, P m
  | .mk ps ms bs tr ats => by
    apply h
    intro k c hmem
    exact Module.indStrong P h c
termination_by m => sizeOf m
decreasing_by
  have := sizeOf_child_lt hmem
  simp
  omega


theorem wellFormedb_mk {ps ms bs tr ats} :
    wellFormedb (.mk ps ms bs tr ats) = wfc ms := by
  simp [wellFormedb]

theorem wfc_cons_some {k : String} {c : Module} {t} (h : wfc ((k, some c) :: t) = true) :
    k ≠ "" ∧ hasDot k.data = false ∧ wellFormedb c = true ∧ alookup k t = none ∧ wfc t = true := by
  rw [wfc] at h
  split_ifs at h with h1 h2
  simp only [Bool.and_eq_true, Option.isNone_iff_eq_none] at h
  exact ⟨h1, by simpa using h2, h.1.1, h.1.2, h.2⟩

theorem wfc_cons_none {k : String} {t} (h : wfc ((k, (none : Option Module)) :: t) = true) : False := by
  rw [wfc] at h
  exact Bool.false_ne_true h

theorem mem_chainsChildren {ms : List (String × Option Module)} {ch : List String} :
    ch ∈ chainsChildren ms ↔
      ∃ k c ch', (k, some c) ∈ ms ∧ ch = k :: ch' ∧ ch' ∈ chains c := by
  induction ms with
  | nil => simp [chainsChildren]
  | cons hd t ih =>
    obtain ⟨k, oc⟩ := hd
    cases oc with
    | none =>
      rw [chainsChildren]
      rw [ih]
      constructor
      · rintro ⟨k', c', ch', hm, he, hc⟩
        exact ⟨k', c', ch', List.mem_cons_of_mem _ hm, he, hc⟩
      · rintro ⟨k', c', ch', hm, he, hc⟩
        rcases List.mem_cons.mp hm with h1 | h2
        · cases h1
        · exact ⟨k', c', ch', h2, he, hc⟩
    | some c =>
      rw [chainsChildren]
      simp only [List.mem_append, List.mem_map, ih]
      constructor
      · rintro (⟨ch', hc, rfl⟩ | ⟨k', c', ch', hm, he, hc⟩)
        · exact ⟨k, c, ch', List.mem_cons_self _ _, rfl, hc⟩
        · exact ⟨k', c', ch', List.mem_cons_of_mem _ hm, he, hc⟩
      · rintro ⟨k', c', ch', hm, he, hc⟩
        rcases List.mem_cons.mp hm with h1 | h2
        · injection h1 with e1 e2
          subst e1
          injection e2 with e2
          subst e2
          exact Or.inl ⟨ch', hc, he.symm⟩
        · exact Or.inr ⟨k', c', ch', h2, he, hc⟩


theorem joinChain_cons (p k : String) (r : List String) :
    joinChain p (k :: r) = joinChain (qualName p k) r := by
  rw [joinChain]

theorem nm_spec : ∀ m : Module, wellFormedb m = true → ∀ pfx : String,
    ∃ l, named_modules m pfx true true = .ok ((pfx, some m) :: l) ∧
      ((pfx, some m) :: l).map Prod.fst = (chains m).map (joinChain pfx) := by
  intro m
  induction m using Module.indStrong with
  | _ ps ms bs tr ats IH =>
    intro hwf pfx
    rw [wellFormedb_mk] at hwf
    have inner : ∀ (ms' : List (String × Option Module)),
        (∀ k c, (k, some c) ∈ ms' → wellFormedb c = true → ∀ pfx' : String,
          ∃ l, named_modules c pfx' true true = .ok ((pfx', some c) :: l) ∧
            ((pfx', some c) :: l).map Prod.fst = (chains c).map (joinChain pfx')) →
        wfc ms' = true → ∀ pfx' : String,
        ∃ l, named_modules_children ms' pfx' true = .ok l ∧
          l.map Prod.fst = (chainsChildren ms').map (joinChain pfx') := by
      intro ms'
      induction ms' with
      | nil =>
        intro _ _ pfx'
        exact ⟨[], by rw [named_modules_children]; rfl, by rw [chainsChildren]; simp⟩
      | cons hd t iht =>
        intro hih hwfc pfx'
        obtain ⟨k, oc⟩ := hd
        cases oc with
        | none => exact absurd hwfc (by intro h; exact wfc_cons_none h)
        | some c =>
          obtain ⟨_, _, hc, _, ht⟩ := wfc_cons_some hwfc
          obtain ⟨lc, hlc, hmapc⟩ :=
            hih k c (List.mem_cons_self _ _) hc (qualName pfx' k)
          obtain ⟨lt, hlt, hmapt⟩ :=
            iht (fun k' c' hm => hih k' c' (List.mem_cons_of_mem _ hm)) ht pfx'
          refine ⟨((qualName pfx' k, some c) :: lc) ++ lt, ?_, ?_⟩
          · rw [named_modules_children]
            simp only [hlc, hlt]
            rfl
          · rw [chainsChildren]
            simp only [List.map_append, List.map_map, List.map_cons]
            rw [← hmapt]
            have : (chains c).map (joinChain pfx' ∘ fun ch => k :: ch) =
                (chains c).map (joinChain (qualName pfx' k)) := by
              apply List.map_congr_left
              intro ch _
              simp [Function.comp, joinChain_cons]
            rw [this, ← hmapc]
            simp
    obtain ⟨l, hl, hmap⟩ := inner ms IH hwf pfx
    refine ⟨l, ?_, ?_⟩
    · rw [named_modules]
      simp only [hl]
      rfl
    · rw [chains]
      simp only [List.map_cons, joinChain, hmap]


theorem chains_length : ∀ m : Module, (chains m).length = msize m := by
  intro m
  induction m using Module.indStrong with
  | _ ps ms bs tr ats IH =>
    have inner : ∀ (ms' : List (String × Option Module)),
        (∀ k c, (k, some c) ∈ ms' → (chains c).length = msize c) →
        (chainsChildren ms').length = csize ms' := by
      intro ms'
      induction ms' with
      | nil => intro _; rw [chainsChildren, csize]; rfl
      | cons hd t iht =>
        intro hih
        obtain ⟨k, oc⟩ := hd
        cases oc with
        | none =>
          rw [chainsChildren, csize]
          exact iht fun k' c' hm => hih k' c' (List.mem_cons_of_mem _ hm)
        | some c =>
          rw [chainsChildren, csize]
          rw [List.length_append, List.length_map]
          rw [hih k c (List.mem_cons_self _ _),
            iht fun k' c' hm => hih k' c' (List.mem_cons_of_mem _ hm)]
    rw [chains, msize, List.length_cons, inner ms IH]
    omega

theorem alookup_none_key_ne {α : Type} {k : String} {t : List (String × α)}
    (h : alookup k t = none) {k' : String} {v : α} (hm : (k', v) ∈ t) : k' ≠ k := by
  induction t with
  | nil => cases hm
  | cons hd t iht =>
    rw [alookup] at h
    split at h
    · exact absurd h (by simp)
    · rcases List.mem_cons.mp hm with h1 | h2
      · subst h1; assumption
      · exact iht h h2

theorem chains_nodup : ∀ m : Module, wellFormedb m = true → (chains m).Nodup := by
  intro m
  induction m using Module.indStrong with
  | _ ps ms bs tr ats IH =>
    intro hwf
    rw [wellFormedb_mk] at hwf
    have inner : ∀ (ms' : List (String × Option Module)),
        (∀ k c, (k, some c) ∈ ms' → wellFormedb c = true → (chains c).Nodup) →
        wfc ms' = true → (chainsChildren ms').Nodup := by
      intro ms'
      induction ms' with
      | nil => intro _ _; rw [chainsChildren]; exact List.nodup_nil
      | cons hd t iht =>
        intro hih hwfc
        obtain ⟨k, oc⟩ := hd
        cases oc with
        | none => exact absurd hwfc (by intro h; exact wfc_cons_none h)
        | some c =>
          obtain ⟨_, _, hc, hfresh, ht⟩ := wfc_cons_some hwfc
          rw [chainsChildren]
          apply List.Nodup.append
          · exact (hih k c (List.mem_cons_self _ _) hc).map List.cons_injective
          · exact iht (fun k' c' hm => hih k' c' (List.mem_cons_of_mem _ hm)) ht
          · intro ch hl hr
            obtain ⟨ch', _, rfl⟩ := List.mem_map.mp hl
            obtain ⟨k', c', ch'', hm, he, _⟩ := mem_chainsChildren.mp hr
            injection he with e1 _
            exact alookup_none_key_ne hfresh hm e1.symm
    rw [chains]
    apply List.Nodup.cons
    · intro hmem
      obtain ⟨k', c', ch', _, he, _⟩ := mem_chainsChildren.mp hmem
      cases he
    · exact inner ms (fun k c hm hwfc => IH k c hm hwfc) hwf

/-- Every name in every chain of a well-formed tree is non-empty and
separator-free. -/
theorem chains_valid : ∀ m : Module, wellFormedb m = true →
    ∀ ch ∈ chains m, ∀ s ∈ ch, s ≠ "" ∧ hasDot s.data = false := by
  intro m
  induction m using Module.indStrong with
  | _ ps ms bs tr ats IH =>
    intro hwf ch hch s hs
    rw [wellFormedb_mk] at hwf
    rw [chains] at hch
    rcases List.mem_cons.mp hch with h1 | h2
    · subst h1; cases hs
    · clear hch
      induction ms with
      | nil => rw [chainsChildren] at h2; cases h2
      | cons hd t iht =>
        obtain ⟨k, oc⟩ := hd
        cases oc with
        | none => exact absurd hwf (by intro h; exact wfc_cons_none h)
        | some c =>
          obtain ⟨hk, hkd, hc, _, ht⟩ := wfc_cons_some hwf
          rw [chainsChildren] at h2
          rcases List.mem_append.mp h2 with hl | hr
          · obtain ⟨ch', hch', rfl⟩ := List.mem_map.mp hl
            rcases List.mem_cons.mp hs with rfl | hs'
            · exact ⟨hk, hkd⟩
            · exact IH k c (List.mem_cons_self _ _) hc ch' hch' s hs'
          · exact iht (fun k' c' hm => IH k' c' (List.mem_cons_of_mem _ hm)) ht hr


theorem hasDot_eq_false_iff {l : List Char} : hasDot l = false ↔ '.' ∉ l := by
  induction l with
  | nil => simp [hasDot]
  | cons c t ih =>
    rw [hasDot]
    split
    · subst ‹c = '.'›
      simp
    · rename_i hne
      rw [ih, List.mem_cons]
      constructor
      · intro h hor
        rcases hor with h1 | h2
        · exact hne h1.symm
        · exact h h2
      · intro h hm
        exact h (Or.inr hm)

theorem ne_empty_iff_data_ne_nil {s : String} : s ≠ "" ↔ s.data ≠ [] := by
  constructor
  · intro h hd
    exact h (String.ext hd)
  · intro h he
    subst he
    exact h rfl

/-- First-occurrence splitting: if two dot-free segments are each followed by
a block that is empty or starts with a dot, and the concatenations agree,
the segments and the blocks agree. -/
theorem seg_split : ∀ (s₁ s₂ u v : List Char), '.' ∉ s₁ → '.' ∉ s₂ →
    (u = [] ∨ ∃ u', u = '.' :: u') → (v = [] ∨ ∃ v', v = '.' :: v') →
    s₁ ++ u = s₂ ++ v → s₁ = s₂ ∧ u = v := by
  intro s₁
  induction s₁ with
  | nil =>
    intro s₂ u v _ hs₂ hu hv he
    cases s₂ with
    | nil => exact ⟨rfl, he⟩
    | cons c t =>
      exfalso
      rcases hu with rfl | ⟨u', rfl⟩
      · cases he
      · injection he with e1 _
        subst e1
        exact hs₂ (List.mem_cons_self _ _)
  | cons c t ih =>
    intro s₂ u v hs₁ hs₂ hu hv he
    cases s₂ with
    | nil =>
      exfalso
      rcases hv with rfl | ⟨v', rfl⟩
      · cases he
      · injection he with e1 _
        subst e1
        exact hs₁ (List.mem_cons_self _ _)
    | cons c' t' =>
      injection he with e1 e2
      subst e1
      obtain ⟨ha, hb⟩ := ih t' u v (fun h => hs₁ (List.mem_cons_of_mem _ h))
        (fun h => hs₂ (List.mem_cons_of_mem _ h)) hu hv e2
      exact ⟨by rw [ha], hb⟩

theorem chainTail_shape (ch : List String) :
    chainTail ch = [] ∨ ∃ u, chainTail ch = '.' :: u := by
  cases ch with
  | nil => exact Or.inl rfl
  | cons a r => exact Or.inr ⟨a.data ++ chainTail r, by simp [chainTail]⟩

/-- `chainTail` is injective on chains of valid (dot-free) names. -/
theorem chainTail_inj : ∀ (ch₁ ch₂ : List String),
    (∀ s ∈ ch₁, s ≠ "" ∧ hasDot s.data = false) →
    (∀ s ∈ ch₂, s ≠ "" ∧ hasDot s.data = false) →
    chainTail ch₁ = chainTail ch₂ → ch₁ = ch₂ := by
  intro ch₁
  induction ch₁ with
  | nil =>
    intro ch₂ _ hv₂ he
    cases ch₂ with
    | nil => rfl
    | cons b s => rw [chainTail, chainTail] at he; cases he
  | cons a r ih =>
    intro ch₂ hv₁ hv₂ he
    cases ch₂ with
    | nil => rw [chainTail, chainTail] at he; cases he
    | cons b s =>
      rw [chainTail, chainTail] at he
      injection he with _ he
      have hda : '.' ∉ a.data :=
        hasDot_eq_false_iff.mp (hv₁ a (List.mem_cons_self _ _)).2
      have hdb : '.' ∉ b.data :=
        hasDot_eq_false_iff.mp (hv₂ b (List.mem_cons_self _ _)).2
      obtain ⟨e1, e2⟩ := seg_split a.data b.data (chainTail r) (chainTail s)
        hda hdb (chainTail_shape r) (chainTail_shape s) he
      have : a = b := String.ext e1
      subst this
      rw [ih s (fun x hx => hv₁ x (List.mem_cons_of_mem _ hx))
        (fun x hx => hv₂ x (List.mem_cons_of_mem _ hx)) e2]

theorem joinChain_data : ∀ (ch : List String) (p : String), p ≠ "" →
    (joinChain p ch).data = p.data ++ chainTail ch := by
  intro ch
  induction ch with
  | nil => intro p _; rw [joinChain, chainTail]; simp
  | cons a r ih =>
    intro p hp
    rw [joinChain, chainTail]
    have hq : qualName p a = p ++ "." ++ a := by rw [qualName, if_neg hp]
    have hdot : (".").data = ['.'] := rfl
    have hqd : (qualName p a).data = p.data ++ '.' :: a.data := by
      rw [hq, String.data_append, String.data_append, hdot]
      simp
    have hqne : qualName p a ≠ "" := by
      rw [ne_empty_iff_data_ne_nil, hqd]
      simp
    rw [ih (qualName p a) hqne, hqd]
    simp

/-- `joinChain ""` (path formation from the root) is injective on chains of
valid names. -/
theorem joinChain_inj (ch₁ ch₂ : List String)
    (hv₁ : ∀ s ∈ ch₁, s ≠ "" ∧ hasDot s.data = false)
    (hv₂ : ∀ s ∈ ch₂, s ≠ "" ∧ hasDot s.data = false)
    (he : joinChain "" ch₁ = joinChain "" ch₂) : ch₁ = ch₂ := by
  have key : ∀ (ch : List String), (∀ s ∈ ch, s ≠ "" ∧ hasDot s.data = false) →
      (joinChain "" ch).data = match ch with
        | [] => []
        | a :: r => a.data ++ chainTail r := by
    intro ch hv
    cases ch with
    | nil => rfl
    | cons a r =>
      rw [joinChain]
      have ha : qualName "" a = a := by rw [qualName, if_pos rfl]
      rw [ha]
      exact joinChain_data r a (hv a (List.mem_cons_self _ _)).1
  have hd := congrArg String.data he
  rw [key ch₁ hv₁, key ch₂ hv₂] at hd
  cases ch₁ with
  | nil =>
    cases ch₂ with
    | nil => rfl
    | cons b s =>
      exfalso
      simp only at hd
      have hb : b.data ≠ [] :=
        ne_empty_iff_data_ne_nil.mp (hv₂ b (List.mem_cons_self _ _)).1
      cases hbd : b.data with
      | nil => exact hb hbd
      | cons x xs => rw [hbd] at hd; cases hd
  | cons a r =>
    cases ch₂ with
    | nil =>
      exfalso
      simp only at hd
      have ha : a.data ≠ [] :=
        ne_empty_iff_data_ne_nil.mp (hv₁ a (List.mem_cons_self _ _)).1
      cases had : a.data with
      | nil => exact ha had
      | cons x xs => rw [had] at hd; cases hd
    | cons b s =>
      simp only at hd
      have hda : '.' ∉ a.data :=
        hasDot_eq_false_iff.mp (hv₁ a (List.mem_cons_self _ _)).2
      have hdb : '.' ∉ b.data :=
        hasDot_eq_false_iff.mp (hv₂ b (List.mem_cons_self _ _)).2
      obtain ⟨e1, e2⟩ := seg_split a.data b.data (chainTail r) (chainTail s)
        hda hdb (chainTail_shape r) (chainTail_shape s) hd
      have hab : a = b := String.ext e1
      subst hab
      rw [chainTail_inj r s (fun x hx => hv₁ x (List.mem_cons_of_mem _ hx))
        (fun x hx => hv₂ x (List.mem_cons_of_mem _ hx)) e2]


theorem tryTier_ni {O : Type} (k : Unit → Except Err O) :
    tryTier (.error .notImplemented) k = k () := rfl

theorem tryTier_not_ni {O : Type} {x : Except Err O} (k : Unit → Except Err O)
    (h : x ≠ .error .notImplemented) : tryTier x k = x := by
  cases x with
  | ok v => rfl
  | error e => cases e <;> first | rfl | exact absurd rfl h

/-- The state of a `Module` object immediately after `Module.__init__`:
three empty registries, `training` off, nothing else in the instance dict. -/
def emptyModule : Module := .mk [] [] [] false []

/-- The parameter box holding the root's scalar `w = 2`. -/
def pw : Param := ⟨1, 2⟩

/-- The parameter box holding the child's scalar `w2 = 3`. -/
def pw2 : Param := ⟨2, 3⟩

/-- The child component `C` of the §8 scenario. -/
def exC : Module := .mk [("w2", some pw2)] [] [] false []

/-- The root component `R` of the §8 scenario: parameter `w`, child `C`. -/
def exR : Module := .mk [("w", some pw)] [("C", some exC)] [] false []

/-- The scenario states are exactly what the registration API produces from
freshly constructed modules. -/
theorem exR_reachable :
    (do
      let c ← register_parameter emptyModule "w2" (.box pw2)
      let r ← register_parameter emptyModule "w" (.box pw)
      add_module r "C" (some c)) = .ok exR := rfl

/-- C1: `namedParameters(R)` for root `R` (parameter `w`) with child `C`
(parameter `w2`) yields exactly `[("w", pw), ("C.w2", pw2)]` in that order;
the qualified path joins component path and entry name with the separator,
omitting it at the empty root path. -/
theorem named_parameters_scenario :
    named_parameters exR "" true = .ok [("w", some pw), ("C.w2", some pw2)] ∧
    qualName "" "w" = "w" ∧ qualName "C" "w2" = "C.w2" :=
  ⟨rfl, rfl, rfl⟩

/-- C2: on every well-formed component tree, `named_modules` with
`include_self` and `include_children` yields the root first, never repeats
a path, and yields exactly as many pairs as the tree has components. -/
theorem named_modules_complete (m : Module) (h : wellFormedb m = true) :
    ∃ l, named_modules m "" true true = .ok l ∧
      l.head? = some ("", some m) ∧
      (l.map Prod.fst).Nodup ∧
      l.length = msize m := by
  obtain ⟨l, hl, hmap⟩ := nm_spec m h ""
  refine ⟨("", some m) :: l, hl, rfl, ?_, ?_⟩
  · rw [hmap]
    exact List.Nodup.map_on
      (fun x hx y hy hxy =>
        joinChain_inj x y (chains_valid m h x hx) (chains_valid m h y hy) hxy)
      (chains_nodup m h)
  · have hlen := congrArg List.length hmap
    rw [List.length_map, List.length_map, chains_length] at hlen
    exact hlen

theorem named_modules_complete_witness :
    wellFormedb exR = true ∧
    ∃ l, named_modules exR "" true true = .ok l ∧
      l.head? = some ("", some exR) ∧
      (l.map Prod.fst).Nodup ∧
      l.length = msize exR :=
  ⟨rfl, named_modules_complete exR rfl⟩

/-- C3: `forward` raises `NotImplemented` iff all three tiers do; the tiers
are consulted in the fixed order `forward_nb` (params-only), `forward_np`
(buffers-only), `forward_nm` (stateless); and a tier's outcome other than
`NotImplemented` — success or any other error — is returned unchanged,
without consulting later tiers. -/
theorem forward_tier_dispatch {P B I O : Type} (ov : Overrides P B I O)
    (p : P) (b : B) (i : I) :
    (ov.forward p b i = .error .notImplemented ↔
      (ov.forward_nb p i = .error .notImplemented ∧
       ov.forward_np b i = .error .notImplemented ∧
       ov.forward_nm i = .error .notImplemented)) ∧
    (ov.forward_nb p i ≠ .error .notImplemented →
      ov.forward p b i = ov.forward_nb p i) ∧
    (ov.forward_nb p i = .error .notImplemented →
      ov.forward_np b i ≠ .error .notImplemented →
      ov.forward p b i = ov.forward_np b i) ∧
    (ov.forward_nb p i = .error .notImplemented →
      ov.forward_np b i = .error .notImplemented →
      ov.forward p b i = ov.forward_nm i) := by
  refine ⟨⟨?_, ?_⟩, ?_, ?_, ?_⟩
  · intro h
    by_cases h1 : ov.forward_nb p i = .error .notImplemented
    · by_cases h2 : ov.forward_np b i = .error .notImplemented
      · by_cases h3 : ov.forward_nm i = .error .notImplemented
        · exact ⟨h1, h2, h3⟩
        · rw [Overrides.forward, h1, tryTier_ni, h2, tryTier_ni,
            tryTier_not_ni _ h3] at h
          exact absurd h h3
      · rw [Overrides.forward, h1, tryTier_ni, tryTier_not_ni _ h2] at h
        exact absurd h h2
    · rw [Overrides.forward, tryTier_not_ni _ h1] at h
      exact absurd h h1
  · rintro ⟨h1, h2, h3⟩
    rw [Overrides.forward, h1, tryTier_ni, h2, tryTier_ni, h3, tryTier_ni]
  · intro h1
    rw [Overrides.forward, tryTier_not_ni _ h1]
  · intro h1 h2
    rw [Overrides.forward, h1, tryTier_ni, tryTier_not_ni _ h2]
  · intro h1 h2
    rw [Overrides.forward, h1, tryTier_ni, h2, tryTier_ni]
    by_cases h3 : ov.forward_nm i = .error .notImplemented
    · rw [h3, tryTier_ni]
    · rw [tryTier_not_ni _ h3]

/-- A subclass whose params-only tier declines, whose buffers-only tier
raises a non-`NotImplemented` error, and whose stateless tier would
succeed. -/
def exOv3 : Overrides Unit Unit Unit Nat where
  forward_nb := fun _ _ => .error .notImplemented
  forward_np := fun _ _ => .error .typeKind
  forward_nm := fun _ => .ok 0

theorem forward_tier_dispatch_witness :
    exOv3.forward () () () = .error .typeKind :=
  (forward_tier_dispatch exOv3 () () ()).2.2.1 rfl (by simp [exOv3])

/-- C4: `__call__(inputs)` flattens the current parameters and buffers and is
transparent: whenever the flattenings succeed, it returns exactly
`forward(params, buffs, inputs)`. -/
theorem call_transparent {I O : Type}
    (ov : Overrides (List (String × Option Param)) (List (String × Option Tensor)) I O)
    (m : Module) (i : I)
    (ps : List (String × Option Param)) (bs : List (String × Option Tensor))
    (hp : named_parameters m "" true = .ok ps)
    (hb : named_buffers m "" true = .ok bs) :
    moduleCall ov m i = ov.forward ps bs i := by
  rw [moduleCall, hp, hb]
  rfl

/-- A concrete subclass computing from the flattened parameter mapping. -/
def exOv4 : Overrides (List (String × Option Param)) (List (String × Option Tensor)) Tensor Tensor where
  forward_nb := fun ps i => .ok (i + (ps.length : Int))
  forward_np := fun _ _ => .error .notImplemented
  forward_nm := fun _ => .error .notImplemented

theorem call_transparent_witness :
    moduleCall exOv4 exR 5 =
      exOv4.forward [("w", some pw), ("C.w2", some pw2)] [] 5 :=
  call_transparent exOv4 exR 5 _ _ rfl rfl


theorem alookup_aupdate_found {α : Type} {k : String} {l : List (String × α)} {v : α}
    (h : alookup k l = some v) (w : α) : alookup k (aupdate k w l) = some w := by
  induction l with
  | nil => cases h
  | cons hd t ih =>
    rw [alookup] at h
    rw [aupdate, List.map_cons]
    split at h
    · rename_i he
      rw [show (if hd.1 = k then (k, w) else hd) = (k, w) from if_pos he]
      rw [alookup, if_pos rfl]
    · rename_i he
      rw [show (if hd.1 = k then (k, w) else hd) = hd from if_neg he]
      rw [alookup, if_neg he]
      exact ih h

theorem alookup_append_of_none {α : Type} {k : String} {l₁ : List (String × α)}
    (h : alookup k l₁ = none) (l₂ : List (String × α)) :
    alookup k (l₁ ++ l₂) = alookup k l₂ := by
  induction l₁ with
  | nil => rfl
  | cons hd t ih =>
    rw [alookup] at h
    split at h
    · cases h
    · rw [List.cons_append, alookup, if_neg ‹¬hd.1 = k›]
      exact ih h

/-- C5: assigning a `Parameter` value through `__setattr__` to a name already
bound to a box updates the box's wrapped value in place: the registry entry
afterwards is the same box (same identity, `boxId`) with its `data` replaced
by the assigned value's `data`, and nothing else in the object changes. -/
theorem setattr_param_in_place (m : Module) (k : String) (p q : Param)
    (h : alookup k m.params = some (some q)) :
    ∃ m', setattr_ m k (.vparam p) = .ok m' ∧
      alookup k m'.params = some (some ⟨q.boxId, p.data⟩) ∧
      m'.children = m.children ∧ m'.buffs = m.buffs ∧ m'.attrs = m.attrs := by
  cases m with
  | mk ps ms bs tr ats =>
    rw [Module.params] at h
    refine ⟨.mk (aupdate k (some ⟨q.boxId, p.data⟩) ps) ms bs tr ats, ?_, ?_, rfl, rfl, rfl⟩
    · rw [setattr_, h]
    · rw [Module.params]
      exact alookup_aupdate_found h _

theorem setattr_param_in_place_witness :
    ∃ m', setattr_ exR "w" (.vparam ⟨9, 7⟩) = .ok m' ∧
      alookup "w" m'.params = some (some ⟨pw.boxId, (7 : Tensor)⟩) ∧
      m'.children = exR.children ∧ m'.buffs = exR.buffs ∧ m'.attrs = exR.attrs :=
  setattr_param_in_place exR "w" ⟨9, 7⟩ pw rfl


/-- An ordinary instance attribute `x` written first, then a parameter
registered under the same name: both coexist, the instance dict entry
shadowing the registry on read. -/
def pxa : Param := ⟨5, 11⟩

/-- The module state with `x` both an ordinary instance attribute (payload
`raw 7`) and a registered parameter (`pxa`). -/
def exShadow : Module := .mk [("x", some pxa)] [] [] false [("x", .raw 7)]

theorem exShadow_reachable :
    (do
      let m1 ← setattr_ emptyModule "x" (.vplain (.raw 7))
      register_parameter m1 "x" (.box pxa)) = .ok exShadow := rfl

/-- C6 counterexample: a name present both as an ordinary instance attribute
and in the parameter registry resolves to the *instance attribute*, not the
registry entry — normal Python lookup wins, `__getattr__` never runs. -/
theorem getattr_shadowing_counterexample :
    alookup "x" exShadow.params = some (some pxa) ∧
    alookup "x" exShadow.attrs = some (.raw 7) ∧
    getattribute exShadow "x" = .ok (.ares (.raw 7)) ∧
    getattribute exShadow "x" ≠ .ok (.pres (some pxa)) := by
  refine ⟨rfl, rfl, rfl, ?_⟩
  intro h
  have h2 : (Except.ok (AttrResult.ares (.raw 7)) : Except Err AttrResult) =
      .ok (.pres (some pxa)) := h
  simp at h2

/-- C6 (amended): attribute read checks the ordinary instance attributes
first; only when they miss does `__getattr__` consult the parameter, child
and buffer registries, in that order; when everything misses the read fails
with `AttributeError`. -/
theorem getattribute_resolution_order (m : Module) (k : String) :
    (∀ v, alookup k m.attrs = some v → getattribute m k = .ok (.ares v)) ∧
    (alookup k m.attrs = none → ∀ p, alookup k m.params = some p →
      getattribute m k = .ok (.pres p)) ∧
    (alookup k m.attrs = none → alookup k m.params = none →
      ∀ c, alookup k m.children = some c → getattribute m k = .ok (.mres c)) ∧
    (alookup k m.attrs = none → alookup k m.params = none →
      alookup k m.children = none → ∀ b, alookup k m.buffs = some b →
      getattribute m k = .ok (.bres b)) ∧
    (alookup k m.attrs = none → alookup k m.params = none →
      alookup k m.children = none → alookup k m.buffs = none →
      getattribute m k = .error .attributeNotFound) := by
  refine ⟨?_, ?_, ?_, ?_, ?_⟩
  · intro v hv
    rw [getattribute, hv]
  · intro ha p hp
    rw [getattribute, ha, module_getattr, hp]
  · intro ha hp c hc
    rw [getattribute, ha, module_getattr, hp, hc]
  · intro ha hp hc b hb
    rw [getattribute, ha, module_getattr, hp, hc, hb]
  · intro ha hp hc hb
    rw [getattribute, ha, module_getattr, hp, hc, hb]

theorem getattribute_resolution_order_witness :
    getattribute exShadow "x" = .ok (.ares (.raw 7)) ∧
    getattribute exR "w" = .ok (.pres (some pw)) ∧
    getattribute exR "C" = .ok (.mres (some exC)) ∧
    getattribute exR "nope" = .error .attributeNotFound :=
  ⟨(getattribute_resolution_order exShadow "x").1 _ rfl,
   (getattribute_resolution_order exR "w").2.1 rfl _ rfl,
   (getattribute_resolution_order exR "C").2.2.1 rfl rfl _ rfl,
   (getattribute_resolution_order exR "nope").2.2.2.2 rfl rfl rfl rfl⟩


/-- A module holding only the ordinary instance attribute `y` (payload 3). -/
def m7 : Module := .mk [] [] [] false [("y", .raw 3)]

/-- The parameter registered as `y` on `m7`. -/
def py7 : Param := ⟨6, 13⟩

/-- `m7` after `register_parameter("y", py7)`. -/
def m7' : Module := .mk [("y", some py7)] [] [] false [("y", .raw 3)]

/-- C7 counterexample: `registerParameter` succeeds on a valid fresh name
even when an ordinary instance attribute of the same name exists, but the
subsequent attribute read returns that instance attribute, not the boxed
value that was stored. -/
theorem register_parameter_shadowed_counterexample :
    setattr_ emptyModule "y" (.vplain (.raw 3)) = .ok m7 ∧
    register_parameter m7 "y" (.box py7) = .ok m7' ∧
    getattribute m7' "y" = .ok (.ares (.raw 3)) ∧
    getattribute m7' "y" ≠ .ok (.pres (some py7)) := by
  refine ⟨rfl, rfl, rfl, ?_⟩
  intro h
  have h2 : (Except.ok (AttrResult.ares (.raw 3)) : Except Err AttrResult) =
      .ok (.pres (some py7)) := h
  simp at h2

/-- C7 (amended): on an initialized component, for a valid fresh name that is
*not shadowed by an ordinary instance attribute*: registration succeeds,
the attribute read then returns the boxed value that was stored, a second
registration of the same name fails with the `NameConflict` kind, and
registration under an empty or separator-carrying name fails with the
`InvalidName` kind (the name asserts precede the store, so a failed call
leaves the registry untouched). -/
theorem register_parameter_contract (m : Module) (n : String) (v v2 : Param)
    (hn : n ≠ "") (hd : hasDot n.data = false)
    (hfree : alookup n m.params = none) (hattr : alookup n m.attrs = none) :
    ∃ m', register_parameter m n (.box v) = .ok m' ∧
      getattribute m' n = .ok (.pres (some v)) ∧
      register_parameter m' n (.box v2) = .error .nameConflict ∧
      (∀ pl, register_parameter m "" pl = .error .invalidName) ∧
      (∀ bad pl, hasDot bad.data = true →
        register_parameter m bad pl = .error .invalidName) := by
  cases m with
  | mk ps ms bs tr ats =>
    rw [Module.params] at hfree
    rw [Module.attrs] at hattr
    refine ⟨.mk (ps ++ [(n, some v)]) ms bs tr ats, ?_, ?_, ?_, ?_, ?_⟩
    · rw [register_parameter, if_neg hn, if_neg (by rw [hd]; exact Bool.false_ne_true),
        hfree]
      rfl
    · rw [getattribute, Module.attrs, hattr, module_getattr, Module.params,
        alookup_append_of_none hfree, alookup, if_pos rfl]
    · rw [register_parameter, if_neg hn, if_neg (by rw [hd]; exact Bool.false_ne_true),
        alookup_append_of_none hfree, alookup, if_pos rfl]
      rfl
    · intro pl
      rw [register_parameter, if_pos rfl]
    · intro bad pl hbad
      rw [register_parameter]
      by_cases hb : bad = ""
      · rw [if_pos hb]
      · rw [if_neg hb, if_pos (by rw [hbad])]

theorem register_parameter_contract_witness :
    ∃ m', register_parameter emptyModule "w" (.box pw) = .ok m' ∧
      getattribute m' "w" = .ok (.pres (some pw)) ∧
      register_parameter m' "w" (.box pw2) = .error .nameConflict ∧
      (∀ pl, register_parameter emptyModule "" pl = .error .invalidName) ∧
      (∀ bad pl, hasDot bad.data = true →
        register_parameter emptyModule bad pl = .error .invalidName) :=
  register_parameter_contract emptyModule "w" pw pw2 (by decide) rfl rfl rfl


theorem uninitRegistryLookup_eq : ∀ fuel : Nat,
    uninitRegistryLookup fuel = .error .recursionError := by
  intro fuel
  induction fuel with
  | zero => rfl
  | succ k ih => rw [uninitRegistryLookup]; exact ih

/-- C8 (code bug): registration attempted before the registries exist never
fails with the `NotInitialized` kind the source's guard intends.  The name
asserts pass, then the conflict assert reads the missing registry slot,
which loops through `__getattr__`/`hasattr` until the recursion limit: all
three registration operations end in `RecursionError`, and the
`NotInitialized` guard placed after that read is unreachable. -/
theorem preinit_registration_diverges : ∀ fuel : Nat,
    register_parameter_preinit fuel "w" = .error .recursionError ∧
    add_module_preinit fuel "c" = .error .recursionError ∧
    register_buffer_preinit fuel "b" = .error .recursionError ∧
    Err.recursionError ≠ Err.notInitialized := by
  intro fuel
  refine ⟨?_, ?_, ?_, by simp⟩
  · rw [register_parameter_preinit, if_neg (by decide),
      if_neg (by decide), uninitRegistryLookup_eq]
    rfl
  · rw [add_module_preinit, if_neg (by decide),
      if_neg (by decide), uninitRegistryLookup_eq]
    rfl
  · rw [register_buffer_preinit, if_neg (by decide),
      if_neg (by decide), uninitRegistryLookup_eq]
    rfl


theorem except_bind_error {α β : Type} (e : Err) (f : α → Except Err β) :
    (Except.error e >>= f) = .error e := rfl

theorem except_bind_ok {α β : Type} (a : α) (f : α → Except Err β) :
    (Except.ok a >>= f) = f a := rfl

theorem except_pure_bind {α β : Type} (a : α) (f : α → Except Err β) :
    (pure a >>= f) = f a := rfl

theorem named_modules_error_kind : ∀ m : Module, ∀ (pfx : String) (s c : Bool) (e : Err),
    named_modules m pfx s c = .error e → e = .attributeNotFound := by
  intro m
  induction m using Module.indStrong with
  | _ ps ms bs tr ats IH =>
    intro pfx s c e h
    have inner : ∀ (ms' : List (String × Option Module)),
        (∀ k c', (k, some c') ∈ ms' → ∀ (pfx' : String) (s' c'' : Bool) (e' : Err),
          named_modules c' pfx' s' c'' = .error e' → e' = .attributeNotFound) →
        ∀ (pfx' : String) (c'' : Bool) (e' : Err),
          named_modules_children ms' pfx' c'' = .error e' → e' = .attributeNotFound := by
      intro ms'
      induction ms' with
      | nil =>
        intro _ pfx' c'' e' h'
        rw [named_modules_children] at h'
        cases h'
      | cons hd t iht =>
        intro hih pfx' c'' e' h'
        obtain ⟨k, oc⟩ := hd
        rw [named_modules_children.eq_def] at h'
        simp only at h'
        by_cases hc : c'' = true
        · subst hc
          cases oc with
          | some cm =>
            simp only at h'
            cases hx : named_modules cm (qualName pfx' k) true true with
            | error a =>
              rw [hx, except_bind_error] at h'
              injection h' with h'
              subst h'
              exact hih k cm (List.mem_cons_self _ _) _ _ _ _ hx
            | ok hl =>
              rw [hx, except_bind_ok] at h'
              cases hr : named_modules_children t pfx' true with
              | error b =>
                rw [hr, except_bind_error] at h'
                injection h' with h'
                subst h'
                exact iht (fun k' c' hm => hih k' c' (List.mem_cons_of_mem _ hm)) _ _ _ hr
              | ok rl =>
                rw [hr, except_bind_ok] at h'
                cases h'
          | none =>
            simp only [except_bind_error] at h'
            injection h' with h'
            exact h'.symm
        · have hc' : c'' = false := by
            cases c''
            · rfl
            · exact absurd rfl hc
          subst hc'
          simp only [Bool.false_eq_true, if_false, except_pure_bind] at h'
          cases hr : named_modules_children t pfx' false with
          | error b =>
            rw [hr, except_bind_error] at h'
            injection h' with h'
            subst h'
            exact iht (fun k' c' hm => hih k' c' (List.mem_cons_of_mem _ hm)) _ _ _ hr
          | ok rl =>
            rw [hr, except_bind_ok] at h'
            cases h'
    rw [named_modules] at h
    cases hr : named_modules_children ms pfx c with
    | error b =>
      rw [hr, except_bind_error] at h
      injection h with h
      subst h
      exact inner ms IH _ _ _ hr
    | ok rl =>
      rw [hr, except_bind_ok] at h
      cases h


theorem named_modules_children_none :
    ∀ (ms : List (String × Option Module)) (pfx k : String), (k, none) ∈ ms →
      named_modules_children ms pfx true = .error .attributeNotFound := by
  intro ms
  induction ms with
  | nil => intro _ _ h; cases h
  | cons hd t ih =>
    intro pfx k hmem
    obtain ⟨k', oc⟩ := hd
    cases oc with
    | none => rfl
    | some c =>
      have hmem' : (k, (none : Option Module)) ∈ t := by
        rcases List.mem_cons.mp hmem with h1 | h2
        · cases h1
        · exact h2
      show (do
        let here ← named_modules c (qualName pfx k') true true
        let rest ← named_modules_children t pfx true
        pure (here ++ rest)) = Except.error Err.attributeNotFound
      cases hx : named_modules c (qualName pfx k') true true with
      | error a =>
        rw [except_bind_error, named_modules_error_kind c _ _ _ _ hx]
      | ok hl =>
        rw [except_bind_ok, ih pfx k hmem', except_bind_error]

mutual

theorem set_training_error_kind : ∀ (m : Module) (mode : Bool) (e : Err),
    set_training m mode = .error e → e = .attributeNotFound
  | .mk ps ms bs tr ats, mode, e => by
    intro h
    rw [set_training] at h
    cases hr : set_training_children ms mode with
    | error b =>
      rw [hr, except_bind_error] at h
      injection h with h
      subst h
      exact set_training_children_error_kind ms mode b hr
    | ok rl =>
      rw [hr, except_bind_ok] at h
      cases h

theorem set_training_children_error_kind :
    ∀ (l : List (String × Option Module)) (mode : Bool) (e : Err),
      set_training_children l mode = .error e → e = .attributeNotFound
  | [], mode, e => by
    intro h
    rw [set_training_children] at h
    cases h
  | (k, none) :: t, mode, e => by
    intro h
    rw [set_training_children] at h
    injection h with h
    exact h.symm
  | (k, some c) :: t, mode, e => by
    intro h
    rw [set_training_children] at h
    cases hx : set_training c mode with
    | error a =>
      rw [hx, except_bind_error] at h
      injection h with h
      subst h
      exact set_training_error_kind c mode a hx
    | ok c' =>
      rw [hx, except_bind_ok] at h
      cases hr : set_training_children t mode with
      | error b =>
        rw [hr, except_bind_error] at h
        injection h with h
        subst h
        exact set_training_children_error_kind t mode b hr
      | ok t' =>
        rw [hr, except_bind_ok] at h
        cases h

end

theorem set_training_children_none :
    ∀ (l : List (String × Option Module)) (mode : Bool) (k : String),
      (k, none) ∈ l → set_training_children l mode = .error .attributeNotFound := by
  intro l
  induction l with
  | nil => intro _ _ h; cases h
  | cons hd t ih =>
    intro mode k hmem
    obtain ⟨k', oc⟩ := hd
    cases oc with
    | none => rw [set_training_children]
    | some c =>
      have hmem' : (k, (none : Option Module)) ∈ t := by
        rcases List.mem_cons.mp hmem with h1 | h2
        · cases h1
        · exact h2
      rw [set_training_children]
      cases hx : set_training c mode with
      | error a =>
        rw [except_bind_error, set_training_error_kind c mode a hx]
      | ok c' =>
        rw [except_bind_ok, ih mode k hmem', except_bind_error]

/-- C9: after `add_module(name, None)` (an explicit empty child slot, which
the registration contract accepts), any traversal with `include_children`
raises `AttributeError` when it reaches the absent child — it neither skips
the slot nor yields a pair for it — and the recursive training-mode cascade
fails with the same `AttributeError`. -/
theorem absent_child_breaks_traversal (m m' : Module) (name : String)
    (h : add_module m name none = .ok m') (pfx : String) (s mode : Bool) :
    named_modules m' pfx s true = .error .attributeNotFound ∧
    set_training m' mode = .error .attributeNotFound := by
  cases m with
  | mk ps ms bs tr ats =>
    rw [add_module] at h
    split_ifs at h
    injection h with h
    subst h
    have hmem : (name, (none : Option Module)) ∈ ms ++ [(name, none)] :=
      List.mem_append.mpr (Or.inr (List.mem_cons_self _ _))
    constructor
    · rw [named_modules, named_modules_children_none _ pfx name hmem,
        except_bind_error]
    · rw [set_training, set_training_children_none _ mode name hmem,
        except_bind_error]

/-- `exR` after `add_module("gap", None)`. -/
def exRgap : Module :=
  .mk [("w", some pw)] [("C", some exC), ("gap", none)] [] false []

theorem absent_child_breaks_traversal_witness :
    add_module exR "gap" none = .ok exRgap ∧
    named_modules exRgap "" true true = .error .attributeNotFound ∧
    set_training exRgap true = .error .attributeNotFound :=
  ⟨rfl, absent_child_breaks_traversal exR exRgap "gap" rfl "" true true⟩


theorem preinit_registration_diverges_witness :
    register_parameter_preinit 1000 "w" = .error .recursionError ∧
    add_module_preinit 1000 "c" = .error .recursionError ∧
    register_buffer_preinit 1000 "b" = .error .recursionError ∧
    Err.recursionError ≠ Err.notInitialized :=
  preinit_registration_diverges 1000

theorem lastSplit_none_of_no_dot : ∀ l : List Char, hasDot l = false →
    lastSplit l = none := by
  intro l
  induction l with
  | nil => intro _; rfl
  | cons c t ih =>
    intro h
    rw [hasDot] at h
    split at h
    · cases h
    · rw [lastSplit, ih h, if_neg ‹¬c = '.'›]

/-- C10: `get_parameter` on a single-segment path (non-empty, no separator)
always fails — `rsplit(".", 1)` yields a single part and the 2-tuple
unpacking raises `ValueError` — even when the component itself holds a
parameter registered under exactly that name. -/
theorem get_parameter_single_segment (m : Module) (ladder : String)
    (_hne : ladder ≠ "") (hd : hasDot ladder.data = false)
    (p : Option Param) (_hp : alookup ladder m.params = some p) :
    get_parameter m ladder = .error .valueError := by
  rw [get_parameter, lastSplit_none_of_no_dot _ hd]

theorem get_parameter_single_segment_witness :
    get_parameter exR "w" = .error .valueError :=
  get_parameter_single_segment exR "w" (by decide) rfl (some pw) rfl

end Dvitch
